import Mathlib

/-!
Verification of the incremental chart-data loader and the drag-selection
logic of the shuibi_mt frontend, shallowly embedded from
`src/frontend/src/components/chart/hooks/useChartData.ts` and
`src/frontend/src/components/chart/hooks/useChart.ts`.

Times are modelled as integers (epoch seconds, or the wall-clock seconds a
naive date-time string denotes).  JavaScript truthiness of numeric values
(`0`, `null` and `undefined` are falsy) is modelled explicitly wherever the
source relies on it in a guard.
-/

namespace ShuibiMT

/-- One OHLCV candle as handed to the charting surface: `time` is the
epoch-second key; the open/high/low/close/volume floats are bundled as an
opaque payload of type `α` (the loader never computes on them, it only moves
them around). -/
structure Candle (α : Type) where
  time : Int
  ohlcv : α
deriving DecidableEq

/-- One raw row of `price_data` from the historical-data response:
`timestamp` is a naive wall-clock date-time string, modelled by the integer
number of seconds it denotes; the OHLCV floats are the payload. -/
structure RawItem (α : Type) where
  timestamp : Int
  ohlcv : α
deriving DecidableEq

/-- Parsing used by the `loadData` batch formatter:
`new Date(item.timestamp + "Z").getTime() / 1000`.  The naive string gets an
explicit UTC marker appended, so the resulting epoch value equals the
wall-clock value the string denotes. -/
def jsDateParseAppendZ (wall : Int) : Int := wall

/-- Parsing used by the scroll handler's anchor computation:
`dayjs(oldestTimestampRef.current)` parses the naive string in LOCAL time,
with no UTC marker appended, so the resulting epoch value is shifted by the
environment's timezone offset `tzOff` (seconds east of UTC). -/
def dayjsParseNaive (wall tzOff : Int) : Int := wall - tzOff

/-- Rendering `dayjs(...).format("YYYY-MM-DD HH:mm:ss")`: converts an epoch
value back to the local wall-clock seconds it displays as. -/
def dayjsFormatLocal (epoch tzOff : Int) : Int := epoch + tzOff

/-- JavaScript truthiness of a possibly-null numeric value: `null`,
`undefined` and `0` are falsy, every other number is truthy. -/
def truthyNum : Option Int → Bool
  | none => false
  | some t => t != 0

variable {α : Type}

/-- Mapping of one response row inside `loadData`:
`{ time: new Date(item.timestamp + "Z").getTime() / 1000, open: ..., ... }`. -/
def formatCandle (item : RawItem α) : Candle α :=
  { time := jsDateParseAppendZ item.timestamp, ohlcv := item.ohlcv }

/-- One `Map.set` step of `new Map(allData.map((item) => [item.time, item]))`:
if the key is already present the stored value is replaced in place (last
write wins, position keeps the first occurrence), otherwise the pair is
appended in insertion order. -/
def mapSet (m : List (Candle α)) (c : Candle α) : List (Candle α) :=
  if m.any fun x => x.time == c.time then
    m.map fun x => if x.time = c.time then c else x
  else
    m ++ [c]

/-- Deduplication `Array.from(new Map(allData.map((item) => [item.time, item])).values())`
with JavaScript `Map` semantics: the position of a key is its first
occurrence, its value is its last occurrence. -/
def dedupeByTime (l : List (Candle α)) : List (Candle α) := l.foldl mapSet []

/-- Candle comparison of `uniqueData.sort((a, b) => a.time - b.time)`. -/
def timeLE (a b : Candle α) : Prop := a.time ≤ b.time

/-- Strict ordering by `time`; a list that is pairwise ordered by it is
strictly ascending and has no duplicate times. -/
def timeLT (a b : Candle α) : Prop := a.time < b.time

instance : DecidableRel (@timeLE α) :=
  fun a b => inferInstanceAs (Decidable (a.time ≤ b.time))

instance : DecidableRel (@timeLT α) :=
  fun a b => inferInstanceAs (Decidable (a.time < b.time))

instance : IsTotal (Candle α) timeLE := ⟨fun a b => Int.le_total a.time b.time⟩

instance : IsTrans (Candle α) timeLE := ⟨fun _ _ _ h₁ h₂ => le_trans h₁ h₂⟩

instance : IsAntisymm (Candle α) (@timeLT α) :=
  ⟨fun _ _ h₁ h₂ => absurd (lt_trans h₁ h₂) (lt_irrefl _)⟩

/-- Sorting `uniqueData.sort((a, b) => a.time - b.time)`: a comparison sort
ascending by `time` (modelled by insertion sort; on the duplicate-free lists
the source applies it to, every comparison sort by `time` yields the same
output). -/
def sortByTime (l : List (Candle α)) : List (Candle α) := l.insertionSort timeLE

/-- The merge step of `loadData`: `allData = [...formattedData, ...previousData]`
(new batch first, existing series second), dedupe through a `Map` keyed by
`time`, then sort ascending by `time`. -/
def mergeSeries (newBatch existing : List (Candle α)) : List (Candle α) :=
  sortByTime (dedupeByTime (newBatch ++ existing))

/-- Specification device (not part of the source): the value that survives
for key `t` after writing all of `l` into a map left to right, i.e. the last
element of `l` whose `time` equals `t`, if any. -/
def lastLookup : List (Candle α) → Int → Option (Candle α)
  | [], _ => none
  | x :: xs, t =>
    match lastLookup xs t with
    | some c => some c
    | none => if x.time = t then some x else none

/-- No two entries of the list share a `time` key. -/
def distinctTimes (l : List (Candle α)) : Prop :=
  l.Pairwise fun a b => a.time ≠ b.time

/-- Strictly ascending by `time` (which also rules out duplicate times). -/
def strictlyAscending (l : List (Candle α)) : Prop := l.Pairwise (@timeLT α)

/-- The mutable cells of `useChartData`: the candle series held by the chart
(`candlestickSeriesRef.current.data()`), the raw cursor
`oldestTimestampRef.current` (wall-clock seconds of the naive string, `none`
for null), the reentrancy guard `isLoadingRef.current`, and the loading
state published through `setLoading`. -/
structure LoaderState (α : Type) where
  series : List (Candle α)
  oldestTimestampRef : Option Int
  isLoading : Bool
  loadingPub : Bool
deriving DecidableEq

/-- The async `loadData(timestamp, keepPreviousData)` callback, as a function
of the outcome of the awaited `getHistoricalData` call (`Except.error` models
the thrown `Error("Failed to fetch data")`).  The returned flag is `true`
when the exception escapes `loadData` (there is no try/catch in the source,
so the lines after the `await` are skipped on a rejection).  The guard
`candlestickSeriesRef && !isLoadingRef.current` reduces to the loading check
because `candlestickSeriesRef` is the ref object itself, which is always
truthy. -/
def loadData (st : LoaderState α) (fetched : Except Unit (List (RawItem α)))
    (keepPreviousData : Bool) : LoaderState α × Bool :=
  if st.isLoading then (st, false)
  else
    let st1 : LoaderState α := { st with isLoading := true, loadingPub := true }
    match fetched with
    | Except.error _ => (st1, true)
    | Except.ok priceData =>
      match priceData with
      | [] => ({ st1 with isLoading := false, loadingPub := false }, false)
      | first :: _ =>
        let formattedData := priceData.map formatCandle
        let previousData := if keepPreviousData then st1.series else []
        ({ st1 with
            oldestTimestampRef := some first.timestamp
            series := mergeSeries formattedData previousData
            isLoading := false
            loadingPub := false }, false)

/-- The part of `loadData` that runs after the awaited fetch resolves with
`priceData` (used by the interleaving machine below): update the cursor and
merge on a non-empty batch, then clear both loading flags. -/
def loadDataFinish (st : LoaderState α) (priceData : List (RawItem α))
    (keepPreviousData : Bool) : LoaderState α :=
  match priceData with
  | [] => { st with isLoading := false, loadingPub := false }
  | first :: _ =>
    { st with
        oldestTimestampRef := some first.timestamp
        series := mergeSeries (priceData.map formatCandle)
          (if keepPreviousData then st.series else [])
        isLoading := false
        loadingPub := false }

/-- The boundary comparison `visibleTime <= oldestLoadedTime + 1000 * 60` of
the scroll handler (both operands are epoch seconds; the literal is
`1000 * 60` exactly as in the source). -/
def boundaryLE : Option Int → Option Int → Bool
  | some v, some o => decide (v ≤ o + 1000 * 60)
  | _, _ => false

/-- The `handleScroll` callback of `setupScrollHandler`, as a decision
function: the result is `none` when no fetch is triggered, and `some a` when
`loadData` is invoked with anchor `a` (`a = none` models the "Invalid Date"
string produced by `dayjs(null)`).  `hasParam` is the truthiness of the
event parameter, `visibleTime` the time resolved through the chart's
coordinate mapping (`null` when the coordinate cannot be resolved), and
`tzOff` the environment timezone offset used by the dayjs round trip
`dayjs(ref).subtract(1, "minute").format("YYYY-MM-DD HH:mm:ss")`. -/
def handleScroll (tzOff : Int) (st : LoaderState α) (hasParam : Bool)
    (visibleTime : Option Int) : Option (Option Int) :=
  if !hasParam || st.isLoading then none
  else
    let oldestLoadedTime : Option Int := st.series.head?.map fun c => c.time
    let cond : Bool :=
      !truthyNum visibleTime ||
        (truthyNum visibleTime && truthyNum oldestLoadedTime &&
          boundaryLE visibleTime oldestLoadedTime &&
          st.oldestTimestampRef.isSome)
    if cond then
      some (st.oldestTimestampRef.map fun w =>
        dayjsFormatLocal (dayjsParseNaive w tzOff - 60) tzOff)
    else none

/-- The mutable cells of the selection logic in `useChart`:
`selectionStartRef.current`, `selectionEndRef.current`, the published
`rangeSelection` (the committed range), whether the chart's native
`handleScroll`/`handleScale` pan-zoom options are enabled, and whether the
selection overlay div is displayed. -/
structure SelState where
  selStart : Option Int
  selEnd : Option Int
  committed : Option (Int × Int)
  panZoom : Bool
  overlayShown : Bool
deriving DecidableEq

/-- The initial selection state on mount: both refs null, no committed
range, native pan-zoom enabled, overlay hidden. -/
def initSel : SelState :=
  { selStart := none, selEnd := none, committed := none
    panZoom := true, overlayShown := false }

/-- The `clearOverlay` callback: hide the overlay, null both selection refs,
publish a null range selection, and re-enable the chart's native pan-zoom
options.  The `if (overlayRef.current)` guard is modelled as passing, since
the overlay div is created before the handlers run. -/
def clearOverlay (s : SelState) : SelState :=
  { s with overlayShown := false, selStart := none, selEnd := none
           committed := none, panZoom := true }

/-- The `handleMouseDown` subscriber (registered on chart click):
`selectionStartRef.current === null && param.time && (metaKey || ctrlKey) && !data`
sets the anchor and disables native pan-zoom.  `hasData` is the truthiness
of the displayed backtest result `data`, `modifier` the disjunction of the
meta and ctrl modifier keys. -/
def handleMouseDown (hasData : Bool) (time : Option Int) (modifier : Bool)
    (s : SelState) : SelState :=
  if s.selStart.isNone && truthyNum time && modifier && !hasData then
    { s with selStart := time, panZoom := false }
  else s

/-- The `handleMouseMove` subscriber (registered on crosshair move): under
`param.time && selectionStartRef.current && (metaKey || ctrlKey) && !data`,
store the end ref, publish the committed range ordered by min and max, and
show the overlay when both endpoint coordinates resolve to truthy pixel
values (`coordOk`). -/
def handleMouseMove (hasData : Bool) (time : Option Int) (modifier : Bool)
    (coordOk : Bool) (s : SelState) : SelState :=
  if truthyNum time && truthyNum s.selStart && modifier && !hasData then
    match time, s.selStart with
    | some t, some t0 =>
      { s with selEnd := some t
               committed := some (min t0 t, max t0 t)
               overlayShown := if coordOk then true else s.overlayShown }
    | _, _ => s
  else s

/-- The `handleKeyDown` window listener: when a modifier key is down and both
selection refs are truthy, run `clearOverlay`. -/
def handleKeyDown (modifier : Bool) (s : SelState) : SelState :=
  if modifier then
    if truthyNum s.selStart && truthyNum s.selEnd then clearOverlay s else s
  else s

/-- The `handleKeyUp` window listener: unconditionally null both selection
refs (the committed range is left as is). -/
def handleKeyUp (s : SelState) : SelState :=
  { s with selStart := none, selEnd := none }

/-- A loader state together with the number of fetch requests currently in
flight (issued but not yet resolved or rejected). -/
structure MachineState (α : Type) where
  loader : LoaderState α
  inflight : Nat
deriving DecidableEq

/-- The event-step relation of the loader, with the single suspension point
of `loadData` split into a start and a completion transition.
`startFetch` is the synchronous prefix of `loadData` (reached through a
direct call or through `handleScroll`, both of which check
`isLoadingRef.current` first): it only fires when the Loading Flag is false,
sets it, and issues the fetch.  `finishOk` resumes after the awaited fetch
resolves and runs the rest of `loadData`; `finishErr` models a rejected
fetch, which skips the rest of the callback and leaves the flags untouched.
A call or scroll event arriving while the flag is true runs no transition at
all: the source returns early, dropping the event. -/
inductive LoaderStep (α : Type) : MachineState α → MachineState α → Prop where
  | startFetch (s : MachineState α) (h : s.loader.isLoading = false) :
      LoaderStep α s
        ⟨{ s.loader with isLoading := true, loadingPub := true }, s.inflight + 1⟩
  | finishOk (s : MachineState α) (priceData : List (RawItem α))
      (keepPreviousData : Bool) (h : 0 < s.inflight) :
      LoaderStep α s
        ⟨loadDataFinish s.loader priceData keepPreviousData, s.inflight - 1⟩
  | finishErr (s : MachineState α) (h : 0 < s.inflight) :
      LoaderStep α s ⟨s.loader, s.inflight - 1⟩

/-- The loader state on mount: empty series, null cursor, both loading
flags false, nothing in flight. -/
def initMachine (α : Type) : MachineState α :=
  ⟨{ series := [], oldestTimestampRef := none
     isLoading := false, loadingPub := false }, 0⟩

/-- States the loader can reach from the mount state through event steps. -/
def ReachableLoader (s : MachineState α) : Prop :=
  Relation.ReflTransGen (LoaderStep α) (initMachine α) s

instance (l : List (Candle α)) : Decidable (strictlyAscending l) :=
  inferInstanceAs (Decidable (l.Pairwise (@timeLT α)))

instance (l : List (Candle α)) : Decidable (distinctTimes l) := by
  unfold distinctTimes
  infer_instance

/-! ### Properties of the map-based deduplication -/

theorem lastLookup_append (a b : List (Candle α)) (t : Int) :
    lastLookup (a ++ b) t =
      (match lastLookup b t with
       | some c => some c
       | none => lastLookup a t) := by
  induction a with
  | nil => cases h : lastLookup b t <;> simp [lastLookup, h]
  | cons x xs ih =>
    rw [List.cons_append, lastLookup, ih, lastLookup]
    cases h : lastLookup b t <;> cases h2 : lastLookup xs t <;> simp

theorem lastLookup_eq_some {l : List (Candle α)} {t : Int} {c : Candle α}
    (h : lastLookup l t = some c) : c ∈ l ∧ c.time = t := by
  induction l with
  | nil => simp [lastLookup] at h
  | cons x xs ih =>
    rw [lastLookup] at h
    cases h2 : lastLookup xs t with
    | some d =>
      rw [h2] at h
      obtain rfl : d = c := by simpa using h
      obtain ⟨hm, ht⟩ := ih h2
      exact ⟨List.mem_cons_of_mem _ hm, ht⟩
    | none =>
      rw [h2] at h
      by_cases ht : x.time = t
      · rw [if_pos ht] at h
        obtain rfl : x = c := by simpa using h
        exact ⟨List.mem_cons_self _ _, ht⟩
      · rw [if_neg ht] at h
        cases h

theorem lastLookup_eq_none {l : List (Candle α)} {t : Int}
    (h : ∀ x ∈ l, x.time ≠ t) : lastLookup l t = none := by
  induction l with
  | nil => rfl
  | cons x xs ih =>
    rw [lastLookup, ih fun y hy => h y (List.mem_cons_of_mem _ hy)]
    simp [h x (List.mem_cons_self x xs)]

theorem lastLookup_ne_none {l : List (Candle α)} {t : Int} {x : Candle α}
    (hx : x ∈ l) (ht : x.time = t) : lastLookup l t ≠ none := by
  induction l with
  | nil => cases hx
  | cons y ys ih =>
    rw [lastLookup]
    rcases List.mem_cons.mp hx with rfl | hmem
    · cases h2 : lastLookup ys t with
      | some d => simp
      | none => simp [ht]
    · cases h2 : lastLookup ys t with
      | some d => simp
      | none => exact absurd h2 (ih hmem)

theorem lastLookup_map_replace_ne (m : List (Candle α)) (c : Candle α) (t : Int)
    (hct : c.time ≠ t) :
    lastLookup (m.map fun x => if x.time = c.time then c else x) t =
      lastLookup m t := by
  induction m with
  | nil => rfl
  | cons x xs ih =>
    rw [List.map_cons, lastLookup, ih, lastLookup]
    cases h2 : lastLookup xs t with
    | some d => simp
    | none =>
      by_cases hx : x.time = c.time
      · simp [hx, hct, fun h : c.time = t => hct h]
      · simp [hx]

theorem lastLookup_map_replace_eq (m : List (Candle α)) (c : Candle α)
    (hm : ∃ x ∈ m, x.time = c.time) :
    lastLookup (m.map fun x => if x.time = c.time then c else x) c.time =
      some c := by
  induction m with
  | nil => simp at hm
  | cons x xs ih =>
    rw [List.map_cons, lastLookup]
    by_cases hxs : ∃ y ∈ xs, y.time = c.time
    · rw [ih hxs]
    · have hnone :
          lastLookup (xs.map fun x => if x.time = c.time then c else x) c.time
            = none := by
        apply lastLookup_eq_none
        intro y hy
        obtain ⟨z, hz, rfl⟩ := List.mem_map.mp hy
        by_cases hzt : z.time = c.time
        · exact absurd ⟨z, hz, hzt⟩ hxs
        · simp [hzt]
      rw [hnone]
      have hx : x.time = c.time := by
        rcases hm with ⟨y, hy, hyt⟩
        rcases List.mem_cons.mp hy with rfl | hmem
        · exact hyt
        · exact absurd ⟨y, hmem, hyt⟩ hxs
      simp [hx]

theorem lastLookup_mapSet (m : List (Candle α)) (c : Candle α) (t : Int) :
    lastLookup (mapSet m c) t =
      if c.time = t then some c else lastLookup m t := by
  unfold mapSet
  by_cases hmem : (m.any fun x => x.time == c.time) = true
  · rw [if_pos hmem]
    have hex : ∃ x ∈ m, x.time = c.time := by
      obtain ⟨x, hx, hxt⟩ := List.any_eq_true.mp hmem
      exact ⟨x, hx, by simpa using hxt⟩
    by_cases hct : c.time = t
    · subst hct
      rw [lastLookup_map_replace_eq m c hex, if_pos rfl]
    · rw [lastLookup_map_replace_ne m c t hct, if_neg hct]
  · rw [if_neg hmem, lastLookup_append]
    have h1 : lastLookup [c] t = if c.time = t then some c else none := by
      rw [lastLookup, lastLookup]
    rw [h1]
    by_cases hct : c.time = t <;> simp [hct]

theorem lastLookup_foldl (l : List (Candle α)) :
    ∀ (m : List (Candle α)) (t : Int),
      lastLookup (l.foldl mapSet m) t =
        (match lastLookup l t with
         | some c => some c
         | none => lastLookup m t) := by
  induction l with
  | nil => intro m t; rfl
  | cons c l ih =>
    intro m t
    rw [List.foldl_cons, ih, lastLookup, lastLookup_mapSet]
    cases h : lastLookup l t <;> by_cases hct : c.time = t <;> simp [hct]

theorem lastLookup_dedupe (l : List (Candle α)) (t : Int) :
    lastLookup (dedupeByTime l) t = lastLookup l t := by
  rw [dedupeByTime, lastLookup_foldl]
  cases h : lastLookup l t <;> simp [lastLookup]

theorem distinctTimes_mapSet {m : List (Candle α)} (c : Candle α)
    (h : distinctTimes m) : distinctTimes (mapSet m c) := by
  unfold mapSet
  by_cases hmem : (m.any fun x => x.time == c.time) = true
  · rw [if_pos hmem]
    refine List.Pairwise.map _ (fun a b hab => ?_) h
    have ta : (if a.time = c.time then c else a).time = a.time := by
      by_cases hx : a.time = c.time <;> simp [hx]
    have tb : (if b.time = c.time then c else b).time = b.time := by
      by_cases hx : b.time = c.time <;> simp [hx]
    rw [ta, tb]
    exact hab
  · rw [if_neg hmem]
    rw [distinctTimes, List.pairwise_append]
    refine ⟨h, List.pairwise_singleton _ _, ?_⟩
    intro a ha b hb
    obtain rfl : b = c := by simpa using hb
    intro hab
    have : ∃ x ∈ m, (x.time == b.time) = true := ⟨a, ha, by simpa using hab⟩
    exact hmem (List.any_eq_true.mpr this)

theorem distinctTimes_foldl (l : List (Candle α)) :
    ∀ m : List (Candle α), distinctTimes m → distinctTimes (l.foldl mapSet m) := by
  induction l with
  | nil => intro m hm; exact hm
  | cons c l ih => intro m hm; exact ih _ (distinctTimes_mapSet c hm)

theorem distinctTimes_dedupe (l : List (Candle α)) :
    distinctTimes (dedupeByTime l) :=
  distinctTimes_foldl l [] List.Pairwise.nil

theorem lastLookup_of_mem {d : List (Candle α)} (hd : distinctTimes d)
    {c : Candle α} (hc : c ∈ d) : lastLookup d c.time = some c := by
  induction d with
  | nil => cases hc
  | cons x xs ih =>
    rw [lastLookup]
    rcases List.mem_cons.mp hc with rfl | hmem
    · have hnone : lastLookup xs c.time = none := by
        apply lastLookup_eq_none
        intro y hy hyt
        exact List.rel_of_pairwise_cons hd hy hyt.symm
      rw [hnone]
      simp
    · rw [ih hd.of_cons hmem]

theorem mem_iff_lastLookup {d : List (Candle α)} (hd : distinctTimes d)
    {c : Candle α} : c ∈ d ↔ lastLookup d c.time = some c :=
  ⟨lastLookup_of_mem hd, fun h => (lastLookup_eq_some h).1⟩

theorem nodup_of_distinctTimes {l : List (Candle α)} (h : distinctTimes l) :
    l.Nodup :=
  h.imp fun hab heq => hab (congrArg Candle.time heq)

/-! ### Properties of the sort -/

theorem sortByTime_perm (l : List (Candle α)) : List.Perm (sortByTime l) l :=
  List.perm_insertionSort _ l

theorem sortByTime_sorted (l : List (Candle α)) :
    List.Sorted (@timeLE α) (sortByTime l) :=
  List.sorted_insertionSort _ l

theorem distinctTimes_sortByTime {l : List (Candle α)} (h : distinctTimes l) :
    distinctTimes (sortByTime l) :=
  (List.Perm.pairwise_iff (fun hab => hab.symm) (sortByTime_perm l).symm).mp h

/-! ### Properties of the merge -/

theorem mergeSeries_distinctTimes (b e : List (Candle α)) :
    distinctTimes (mergeSeries b e) :=
  distinctTimes_sortByTime (distinctTimes_dedupe _)

theorem mergeSeries_strictlyAscending (b e : List (Candle α)) :
    strictlyAscending (mergeSeries b e) := by
  have hd : distinctTimes (mergeSeries b e) := mergeSeries_distinctTimes b e
  have hs : List.Sorted (@timeLE α) (mergeSeries b e) := sortByTime_sorted _
  exact (List.Pairwise.and hs hd).imp fun h => lt_of_le_of_ne h.1 h.2

theorem mem_mergeSeries {b e : List (Candle α)} {c : Candle α} :
    c ∈ mergeSeries b e ↔ lastLookup (b ++ e) c.time = some c := by
  have h1 : c ∈ mergeSeries b e ↔ c ∈ dedupeByTime (b ++ e) :=
    (sortByTime_perm (dedupeByTime (b ++ e))).mem_iff
  have h2 := @mem_iff_lastLookup α (dedupeByTime (b ++ e))
    (distinctTimes_dedupe (b ++ e)) c
  rw [lastLookup_dedupe] at h2
  exact h1.trans h2

theorem lastLookup_batch_merge (b e : List (Candle α)) (t : Int) :
    lastLookup (b ++ mergeSeries b e) t = lastLookup (mergeSeries b e) t := by
  rw [lastLookup_append]
  cases h : lastLookup (mergeSeries b e) t with
  | some c => rfl
  | none =>
    cases hb : lastLookup b t with
    | none => rfl
    | some d =>
      exfalso
      obtain ⟨hdb, hdt⟩ := lastLookup_eq_some hb
      have hne : lastLookup (b ++ e) t ≠ none :=
        lastLookup_ne_none (List.mem_append_left e hdb) hdt
      obtain ⟨d2, hd2⟩ := Option.ne_none_iff_exists'.mp hne
      have hd2t : d2.time = t := (lastLookup_eq_some hd2).2
      have hd2m : d2 ∈ mergeSeries b e := by
        rw [mem_mergeSeries, hd2t]
        exact hd2
      exact lastLookup_ne_none hd2m hd2t h

/-! ### Claim theorems -/

/-- C3: the series produced by the merge of `loadData` is strictly ascending
by time with no duplicate time values, for every starting series and every
batch (first conjunct), and therefore the series published by any `loadData`
call that merges a non-empty batch satisfies the invariant, so it holds
after each merge of any sequence of `loadData` calls (second conjunct). -/
theorem loadData_series_strictlyAscending {α : Type} :
    (∀ b e : List (Candle α), strictlyAscending (mergeSeries b e)) ∧
    (∀ (st : LoaderState α) (priceData : List (RawItem α)) (kp : Bool),
      st.isLoading = false → priceData ≠ [] →
      strictlyAscending ((loadData st (Except.ok priceData) kp).1.series)) := by
  refine ⟨mergeSeries_strictlyAscending, ?_⟩
  intro st priceData kp hload hne
  match priceData with
  | [] => exact absurd rfl hne
  | first :: rest =>
    simp only [loadData, hload, Bool.false_eq_true, if_false]
    exact mergeSeries_strictlyAscending _ _

/-- Witness for C3: a concrete `loadData` call merging an overlapping batch
into a deliberately unsorted existing series yields a strictly ascending,
duplicate-free series. -/
theorem loadData_series_strictlyAscending_witness :
    strictlyAscending ((loadData
      ({ series := [⟨50, 0⟩, ⟨40, 0⟩], oldestTimestampRef := some 40
         isLoading := false, loadingPub := false } : LoaderState Int)
      (Except.ok [⟨10, 1⟩, ⟨40, 2⟩, ⟨20, 2⟩]) true).1.series) :=
  loadData_series_strictlyAscending.2 _ _ true rfl (by decide)

/-- C4: merging the same batch into a series a second time yields exactly
the series obtained by merging it once. -/
theorem mergeSeries_idempotent {α : Type} (b e : List (Candle α)) :
    mergeSeries b (mergeSeries b e) = mergeSeries b e := by
  have hd1 : distinctTimes (mergeSeries b e) := mergeSeries_distinctTimes b e
  have hd2 : distinctTimes (mergeSeries b (mergeSeries b e)) :=
    mergeSeries_distinctTimes b (mergeSeries b e)
  have hmem : ∀ c, c ∈ mergeSeries b (mergeSeries b e) ↔ c ∈ mergeSeries b e := by
    intro c
    rw [mem_mergeSeries, lastLookup_batch_merge]
    exact (mem_iff_lastLookup hd1).symm
  have hp : List.Perm (mergeSeries b (mergeSeries b e)) (mergeSeries b e) :=
    (List.perm_ext_iff_of_nodup (nodup_of_distinctTimes hd2)
      (nodup_of_distinctTimes hd1)).mpr hmem
  exact List.eq_of_perm_of_sorted hp (mergeSeries_strictlyAscending _ _)
    (mergeSeries_strictlyAscending _ _)

/-- C10: when the fetched batch and the existing series collide on a time
key, the merge keeps the existing series entry for that key (the new batch
is spread first and the existing data second, and map construction is
last-write-wins, so later existing entries overwrite colliding batch
entries) and the colliding batch entry is discarded. -/
theorem merge_collision_keeps_existing {α : Type} {b e : List (Candle α)}
    {t : Int} {c : Candle α} (h : lastLookup e t = some c) :
    c ∈ mergeSeries b e ∧
      ∀ c2 ∈ b, c2.time = t → c2 ≠ c → c2 ∉ mergeSeries b e := by
  have hct : c.time = t := (lastLookup_eq_some h).2
  have hlook : lastLookup (b ++ e) t = some c := by
    rw [lastLookup_append, h]
  constructor
  · rw [mem_mergeSeries, hct]
    exact hlook
  · intro c2 hc2b hc2t hne hmem
    rw [mem_mergeSeries, hc2t, hlook] at hmem
    exact hne (Option.some.inj hmem).symm

/-- Witness for C10: a batch entry and an existing entry share the key 5;
the merged series keeps the existing entry and drops the batch entry. -/
theorem merge_collision_keeps_existing_witness :
    (⟨5, 1⟩ : Candle Int) ∈ mergeSeries [⟨5, 2⟩] [⟨5, 1⟩] ∧
      ∀ c2 ∈ [(⟨5, 2⟩ : Candle Int)], c2.time = 5 → c2 ≠ ⟨5, 1⟩ →
        c2 ∉ mergeSeries [⟨5, 2⟩] [⟨5, 1⟩] :=
  merge_collision_keeps_existing (by decide)

/-- C9: a `loadData` call entered with the Loading Flag clear whose awaited
response carries empty `price_data` is not treated as an error: the series
is unchanged, the Load Cursor `oldestTimestampRef` is unchanged, both the
guard ref and the published loading state return to false, and no exception
escapes.  The call consumed its single fetch; the embedding performs exactly
one fetch per call, so no further fetch is issued by it. -/
theorem loadData_empty_response_noop {α : Type} (st : LoaderState α)
    (kp : Bool) (h : st.isLoading = false) :
    (loadData st (Except.ok []) kp).1.series = st.series ∧
    (loadData st (Except.ok []) kp).1.oldestTimestampRef = st.oldestTimestampRef ∧
    (loadData st (Except.ok []) kp).1.isLoading = false ∧
    (loadData st (Except.ok []) kp).1.loadingPub = false ∧
    (loadData st (Except.ok []) kp).2 = false := by
  simp [loadData, h]

/-- Witness for C9: a concrete call with an empty response leaves the series
and cursor untouched and ends with both loading flags false. -/
theorem loadData_empty_response_noop_witness :
    (loadData ({ series := [⟨7, 3⟩], oldestTimestampRef := some 7
                 isLoading := false, loadingPub := false } : LoaderState Int)
      (Except.ok []) true).1.series = [⟨7, 3⟩] ∧
    (loadData ({ series := [⟨7, 3⟩], oldestTimestampRef := some 7
                 isLoading := false, loadingPub := false } : LoaderState Int)
      (Except.ok []) true).1.oldestTimestampRef = some 7 ∧
    (loadData ({ series := [⟨7, 3⟩], oldestTimestampRef := some 7
                 isLoading := false, loadingPub := false } : LoaderState Int)
      (Except.ok []) true).1.isLoading = false ∧
    (loadData ({ series := [⟨7, 3⟩], oldestTimestampRef := some 7
                 isLoading := false, loadingPub := false } : LoaderState Int)
      (Except.ok []) true).1.loadingPub = false ∧
    (loadData ({ series := [⟨7, 3⟩], oldestTimestampRef := some 7
                 isLoading := false, loadingPub := false } : LoaderState Int)
      (Except.ok []) true).2 = false :=
  loadData_empty_response_noop _ true rfl

/-- C1 (refutation of the claim on the code): `loadData` has no try/catch,
so a call entered with the Loading Flag clear whose fetch rejects leaves
both `isLoadingRef` and the published loading state stuck true and lets the
exception escape into the caller; no caller-supplied error sink exists in
the source. -/
theorem loadData_error_leaves_flag_stuck {α : Type} (st : LoaderState α)
    (kp : Bool) (h : st.isLoading = false) :
    (loadData st (Except.error ()) kp).1.isLoading = true ∧
    (loadData st (Except.error ()) kp).1.loadingPub = true ∧
    (loadData st (Except.error ()) kp).2 = true := by
  simp [loadData, h]

/-- Witness for C1's refutation: a concrete failing fetch from the mount
state leaves both loading flags true and the exception escaping. -/
theorem loadData_error_leaves_flag_stuck_witness :
    (loadData ({ series := [], oldestTimestampRef := none
                 isLoading := false, loadingPub := false } : LoaderState Int)
      (Except.error ()) true).1.isLoading = true ∧
    (loadData ({ series := [], oldestTimestampRef := none
                 isLoading := false, loadingPub := false } : LoaderState Int)
      (Except.error ()) true).1.loadingPub = true ∧
    (loadData ({ series := [], oldestTimestampRef := none
                 isLoading := false, loadingPub := false } : LoaderState Int)
      (Except.error ()) true).2 = true :=
  loadData_error_leaves_flag_stuck _ true rfl

/-- Invariant of the loader event machine: never more than one fetch in
flight, and none at all while the Loading Flag is false. -/
theorem reachable_inflight_inv {α : Type} {s : MachineState α}
    (h : ReachableLoader s) :
    s.inflight ≤ 1 ∧ (s.loader.isLoading = false → s.inflight = 0) := by
  induction h with
  | refl => exact ⟨Nat.zero_le 1, fun _ => rfl⟩
  | @tail b c hr hstep ih =>
    cases hstep with
    | startFetch h =>
      have h0 : b.inflight = 0 := ih.2 h
      constructor
      · show b.inflight + 1 ≤ 1
        omega
      · intro hfalse
        simp at hfalse
    | finishOk priceData kp h =>
      have h1 : b.inflight ≤ 1 := ih.1
      exact ⟨show b.inflight - 1 ≤ 1 by omega,
        fun _ => show b.inflight - 1 = 0 by omega⟩
    | finishErr h =>
      have h1 : b.inflight ≤ 1 := ih.1
      exact ⟨show b.inflight - 1 ≤ 1 by omega,
        fun _ => show b.inflight - 1 = 0 by omega⟩

/-- C5: in every reachable state of the loader event machine at most one
fetch request is in flight, and no step taken from a state whose Loading
Flag is true increases the in-flight count (a call or viewport event
arriving while loading runs no start transition: it is dropped, not
queued), so two fetches are never in flight simultaneously. -/
theorem at_most_one_fetch_inflight {α : Type} :
    (∀ s : MachineState α, ReachableLoader s → s.inflight ≤ 1) ∧
    (∀ s s2 : MachineState α, s.loader.isLoading = true →
      LoaderStep α s s2 → s2.inflight ≤ s.inflight) := by
  constructor
  · exact fun s h => (reachable_inflight_inv h).1
  · intro s s2 hload hstep
    cases hstep with
    | startFetch h =>
      rw [h] at hload
      exact absurd hload (by decide)
    | finishOk priceData kp h => exact Nat.sub_le _ _
    | finishErr h => exact Nat.sub_le _ _

/-- Witness for C5: the state reached after one fetch starts from the mount
state has at most one request in flight, and a completion step taken from
that loading state does not increase the in-flight count. -/
theorem at_most_one_fetch_inflight_witness :
    (⟨⟨[], none, true, true⟩, 1⟩ : MachineState Int).inflight ≤ 1 ∧
    (⟨⟨[], none, true, true⟩, 0⟩ : MachineState Int).inflight ≤
      (⟨⟨[], none, true, true⟩, 1⟩ : MachineState Int).inflight := by
  constructor
  · exact at_most_one_fetch_inflight.1 _
      (Relation.ReflTransGen.single (LoaderStep.startFetch (initMachine Int) rfl))
  · exact at_most_one_fetch_inflight.2 _ _ rfl
      (LoaderStep.finishErr _ (by decide))

/-- C2 (refutation of the claim on the code): with oldest loaded time
T = 10000 and a resolved visible time of 10100 = T + 100, strictly greater
than T + 60, the scroll handler still triggers a fetch, because the source
compares against `oldestLoadedTime + 1000 * 60` - sixty thousand, a
milliseconds-style literal added to epoch-second times.  The anchor is the
cursor's wall-clock value minus one fixed minute (9940), independent of the
active Interval Granularity. -/
theorem handleScroll_fetches_beyond_claimed_threshold :
    handleScroll 0 (⟨[⟨10000, 0⟩], some 10000, false, false⟩ : LoaderState Int)
      true (some 10100) = some (some 9940) := by decide

/-- C8 (refutation of the claim on the code): the batch formatter parses a
naive timestamp with an appended UTC marker while the scroll handler's
next-anchor computation parses it through dayjs in local time without one,
so in any environment with non-zero timezone offset (here UTC+8, 28800
seconds) the same timestamp string yields different epoch-second values at
the two call sites. -/
theorem timestamp_parse_call_sites_disagree :
    jsDateParseAppendZ 1704067200 ≠ dayjsParseNaive 1704067200 28800 := by
  decide

/-- C6 (counterexample): press the modifier, drag from time 100 to time
200, release the key (`handleKeyUp` nulls both selection refs), then press
the modifier again while the committed range exists: the committed range
survives and native pan-zoom stays disabled, because `handleKeyDown` clears
only when both selection refs are still truthy, and a completed gesture has
already nulled them. -/
theorem keydown_after_completed_drag_does_not_clear :
    handleKeyDown true (handleKeyUp (handleMouseMove false (some 200) true true
        (handleMouseDown false (some 100) true (handleKeyDown true initSel)))) =
      { selStart := none, selEnd := none, committed := some (100, 200)
        panZoom := false, overlayShown := true } := by decide

/-- C6 (amended): pressing the modifier clears the committed range and
re-enables native pan-zoom only while both selection refs are still set to
truthy (non-zero) times, i.e. during an active drag before any key release
has nulled them. -/
theorem keydown_during_active_drag_clears (s : SelState) (a b : Int)
    (ha : s.selStart = some a) (ha0 : a ≠ 0)
    (hb : s.selEnd = some b) (hb0 : b ≠ 0) :
    (handleKeyDown true s).committed = none ∧
    (handleKeyDown true s).panZoom = true := by
  simp [handleKeyDown, ha, hb, truthyNum, bne_iff_ne, ha0, hb0, clearOverlay]

/-- Witness for C6's amended claim: a modifier press during an active drag
with both refs set clears the committed range and re-enables pan-zoom. -/
theorem keydown_during_active_drag_clears_witness :
    (handleKeyDown true
      (⟨some 100, some 200, some (100, 200), false, true⟩ : SelState)).committed
      = none ∧
    (handleKeyDown true
      (⟨some 100, some 200, some (100, 200), false, true⟩ : SelState)).panZoom
      = true :=
  keydown_during_active_drag_clears _ 100 200 rfl (by decide) rfl (by decide)

/-- C7 (counterexample): with an active drag anchored at time 100, moving
the pointer to time 0 - a valid time strictly below the anchor - publishes
no committed range at all, because `param.time` is falsy in JavaScript at 0,
so the claimed committed range with start 0 and end 100 never appears. -/
theorem drag_to_zero_time_publishes_nothing :
    (handleMouseMove false (some 0) true true
        (handleMouseDown false (some 100) true initSel)).committed
      ≠ some (0, 100) := by decide

/-- C7 (amended): for an active drag with non-zero anchor t0 and non-zero
pointer times, moving to t1 below the anchor and then to t2 above it
publishes the committed ranges (t1, t0) and then (t0, t2): the committed
start is always the minimum and the committed end the maximum of the anchor
and the current time, regardless of drag direction. -/
theorem drag_minmax_commit_nonzero_times (s : SelState) (t0 t1 t2 : Int)
    (h0 : s.selStart = some t0) (h00 : t0 ≠ 0) (h10 : t1 ≠ 0) (h20 : t2 ≠ 0)
    (h1 : t1 < t0) (h2 : t0 < t2) (c1 c2 : Bool) :
    (handleMouseMove false (some t1) true c1 s).committed = some (t1, t0) ∧
    (handleMouseMove false (some t2) true c2
        (handleMouseMove false (some t1) true c1 s)).committed
      = some (t0, t2) := by
  have hs1 : (handleMouseMove false (some t1) true c1 s).selStart = some t0 := by
    simp [handleMouseMove, h0, truthyNum, bne_iff_ne, h00, h10]
  constructor
  · simp [handleMouseMove, h0, truthyNum, bne_iff_ne, h00, h10,
      min_eq_right h1.le, max_eq_left h1.le]
  · generalize hgen : handleMouseMove false (some t1) true c1 s = s1 at hs1 ⊢
    simp [handleMouseMove, hs1, truthyNum, bne_iff_ne, h00, h20,
      min_eq_left h2.le, max_eq_right h2.le]

/-- Witness for C7's amended claim: anchored at 100, moving to 50 and then
to 150 publishes the ranges (50, 100) and then (100, 150). -/
theorem drag_minmax_commit_nonzero_times_witness :
    (handleMouseMove false (some 50) true true
      (⟨some 100, none, none, false, false⟩ : SelState)).committed
      = some (50, 100) ∧
    (handleMouseMove false (some 150) true true (handleMouseMove false
        (some 50) true true
        (⟨some 100, none, none, false, false⟩ : SelState))).committed
      = some (100, 150) :=
  drag_minmax_commit_nonzero_times _ 100 50 150 rfl (by decide) (by decide)
    (by decide) (by decide) (by decide) true true

end ShuibiMT
